import Mathlib

/-!
Verification development for the `mpesa-tools` repository.

The Python sources are shallowly embedded here:

* `src/mpesatools/ledgerfy.py` — rule configuration validation, the
  keyword/exclude/condition classification engine and the ledger
  renderer with daily closing balances;
* `src/mpesa2csv/mpesa_ledgerfy.py` — the older variant of the
  classification engine (no `match_type` support);
* `src/mpesatools/xtract-android.py` — the SMS extractor callbacks and
  the SMS date/time parser.

Machine floats of the Python code are modelled by `ℚ` (all amounts in
scope are short decimal strings, on which the two coincide), Python
strings by `String` over their character lists, and fallible Python
code (`eval`, `strptime`) by `Except`.
-/


namespace MpesaTools

/-! ## String primitives modelling the Python built-ins used by the code -/

/-- Does `needle` occur at the very beginning of `hay`? (helper for the
substring test). -/
def matchHere : List Char → List Char → Bool
  | [], _ => true
  | _ :: _, [] => false
  | a :: as, b :: bs => a == b && matchHere as bs

/-- Does `needle` occur somewhere in `hay`? (helper for the substring
test). -/
def occursIn (needle : List Char) : List Char → Bool
  | [] => matchHere needle []
  | b :: t => matchHere needle (b :: t) || occursIn needle t

/-- Python `needle in hay` on strings: the substring test. -/
def strContains (hay needle : String) : Bool :=
  occursIn needle.data hay.data

/-- Python `s.lower()`: character-wise lower-casing.  `Char.toLower`
covers the ASCII range, which is the case mapping exercised by this
code base's details strings and keywords. -/
def strLower (s : String) : String :=
  ⟨s.data.map Char.toLower⟩

/-- Lexicographic comparison of character lists, mirroring the inductive
`List.lt` that underlies `String`'s order (and Python's string `<`). -/
def listLtB : List Char → List Char → Bool
  | [], [] => false
  | [], _ :: _ => true
  | _ :: _, [] => false
  | a :: as, b :: bs =>
    if a < b then true
    else if b < a then false
    else listLtB as bs

/-- Python `a < b` on strings (lexicographic by code point). -/
def strLtB (a b : String) : Bool :=
  listLtB a.data b.data

/-- Python `s.startswith(pre)`. -/
def startsWithB (s pre : String) : Bool :=
  matchHere pre.data s.data

/-- Is `c` an ASCII uppercase letter `A`–`Z`? -/
def isUpperB (c : Char) : Bool :=
  65 ≤ c.toNat && c.toNat ≤ 90

/-! ## Classification engine (`ledgerfy.py` lines 93–152, and the
`mpesa2csv/mpesa_ledgerfy.py` variant at lines 71–102) -/

/-- A rule condition string together with the Python `eval`
collaborator: evaluating it on the bound variable `amount` either
raises (`Except.error ()`) or returns a value whose truthiness is the
`Bool`. -/
def Cond : Type := ℚ → Except Unit Bool

/-- One entry of the config's `rules` list.  `match_type := none`
models an absent `"match_type"` key, `condition := none` an absent (or
falsy) `"condition"` key. -/
structure Rule where
  account : String
  keywords : List String
  exclude : List String
  match_type : Option String
  condition : Option Cond

/-- The parts of the validated configuration that
`categorize_transaction` reads. -/
structure Config where
  rules : List Rule
  default_account : String

/-- Model of `check_keywords_match` in `ledgerfy.py` (lines 93–119): empty
keyword list never matches; any exclude-keyword hit suppresses the
rule; otherwise `"all"` demands every keyword as a substring and any
other `match_type` (the default being `"any"`) demands at least one. -/
def check_keywords_match (details_lower : String) (keywords : List String)
    (match_type : String) (exclude : List String) : Bool :=
  if keywords.isEmpty then false
  else if exclude.any (fun k => strContains details_lower k) then false
  else if match_type == "all" then keywords.all (fun k => strContains details_lower k)
  else keywords.any (fun k => strContains details_lower k)

/-- The rule loop of `categorize_transaction` (`ledgerfy.py` lines
129–152): first rule whose keyword test passes and whose condition is
absent or evaluates to a truthy value wins; a failing or falsy
condition falls through to the next rule; the default account is
returned when the rules are exhausted. -/
def categorize_loop (details_lower : String) (amount : ℚ)
    (default_account : String) : List Rule → String
  | [] => default_account
  | rule :: rest =>
    let match_type := rule.match_type.getD "any"
    if check_keywords_match details_lower rule.keywords match_type rule.exclude then
      match rule.condition with
      | some cond =>
        match cond amount with
        | Except.ok true => rule.account
        | _ => categorize_loop details_lower amount default_account rest
      | none => rule.account
    else
      categorize_loop details_lower amount default_account rest

/-- Model of `categorize_transaction` in `ledgerfy.py` (lines 122–152). -/
def categorize_transaction (details : String) (amount : ℚ) (config : Config) : String :=
  categorize_loop (strLower details) amount config.default_account config.rules

/-- The rule loop of the `mpesa2csv/mpesa_ledgerfy.py` variant (lines
78–99): exclude hit skips the rule, then OR-keyword matching (no
`match_type`), then the same condition handling. -/
def categorize_loop2 (details_lower : String) (amount : ℚ)
    (default_account : String) : List Rule → String
  | [] => default_account
  | rule :: rest =>
    if rule.exclude.any (fun k => strContains details_lower k) then
      categorize_loop2 details_lower amount default_account rest
    else if rule.keywords.any (fun k => strContains details_lower k) then
      match rule.condition with
      | some cond =>
        match cond amount with
        | Except.ok true => rule.account
        | _ => categorize_loop2 details_lower amount default_account rest
      | none => rule.account
    else
      categorize_loop2 details_lower amount default_account rest

/-- Model of `categorize_transaction` in `mpesa2csv/mpesa_ledgerfy.py` (lines
71–102). -/
def categorize_transaction2 (details : String) (amount : ℚ) (config : Config) : String :=
  categorize_loop2 (strLower details) amount config.default_account config.rules

/-- The complete per-rule success test of `ledgerfy.py`'s
`categorize_transaction`: keyword/exclude/match-type test passes and
the condition is absent or evaluates to a truthy value. -/
def rule_matches (details_lower : String) (amount : ℚ) (rule : Rule) : Bool :=
  check_keywords_match details_lower rule.keywords (rule.match_type.getD "any")
      rule.exclude &&
    match rule.condition with
    | none => true
    | some cond =>
      match cond amount with
      | Except.ok true => true
      | _ => false

/-- The complete per-rule success test of the `mpesa2csv` variant. -/
def rule_matches2 (details_lower : String) (amount : ℚ) (rule : Rule) : Bool :=
  !rule.exclude.any (fun k => strContains details_lower k) &&
    rule.keywords.any (fun k => strContains details_lower k) &&
    match rule.condition with
    | none => true
    | some cond =>
      match cond amount with
      | Except.ok true => true
      | _ => false

/-- A condition whose evaluation always raises (e.g. the config string
`"amount >"`). -/
def failCond : Cond := fun _ => Except.error ()

/-- Sample rule whose condition evaluation raises. -/
def failRule : Rule := ⟨"Expenses:Food", ["lunch"], [], none, some failCond⟩

/-- Sample rule all of whose keywords contain an uppercase letter. -/
def upperRule : Rule := ⟨"Expenses:Power", ["KPLC"], [], none, none⟩

/-! ## Ledger stage (`ledgerfy.py` lines 155–272) -/

/-- An input row of the transaction table (CSV/JSON).  Numeric cells are
`Option ℚ`: `none` models an empty cell, `some q` a decimal string of value
`q`; the code's `float(x) if x else 0.0` becomes `Option.getD · 0`. -/
structure Row where
  completionTime : String
  details : String
  status : String
  paidIn : Option ℚ
  withdrawn : Option ℚ
  balance : Option ℚ
  deriving DecidableEq, Repr

/-- Model of `completion_time.split(" ")[0]`: the date portion of the timestamp. -/
def transaction_date (completionTime : String) : String :=
  ⟨completionTime.data.takeWhile (fun c => c ≠ ' ')⟩

/-- One classified transaction as bucketed by date (the dict appended at
lines 208–216). -/
structure Entry where
  account : String
  amount : ℚ
  details : String
  balance : ℚ
  timestamp : String
  deriving DecidableEq, Repr

/-- The per-row step of the loop at lines 176–216: date-range filter
(string comparison, upper bound only when `end_date` is set), status filter,
derived amount and classification; `none` when the row is skipped. -/
def processRow (config : Config) (start_date : String) (end_date : Option String)
    (row : Row) : Option Entry :=
  let tdate := transaction_date row.completionTime
  if strLtB tdate start_date then none
  else if end_date.any (fun e => strLtB e tdate) then none
  else if strLower row.status ≠ "completed" then none
  else
    let paid_in := row.paidIn.getD 0
    let withdrawn := row.withdrawn.getD 0
    let balance := row.balance.getD 0
    let amount := if paid_in > 0 then paid_in else withdrawn
    let account := categorize_transaction row.details amount config
    some ⟨account, amount, row.details, balance, row.completionTime⟩

/-- All rows surviving the filters, in input order. -/
def entries (config : Config) (start_date : String) (end_date : Option String)
    (rows : List Row) : List Entry :=
  rows.filterMap (processRow config start_date end_date)

/-- The date an entry is bucketed under. -/
def entryDate (t : Entry) : String :=
  transaction_date t.timestamp

/-- Model of `sorted(transactions_by_date.keys())` (line 226). -/
def ledger_dates (ts : List Entry) : List String :=
  ((ts.map entryDate).dedup).insertionSort (· ≤ ·)

/-- Model of `transactions_by_date[date]`: the entries of one date, in input order. -/
def day_bucket (ts : List Entry) (date : String) : List Entry :=
  ts.filter (fun t => entryDate t == date)

instance : DecidableRel (fun a b : Entry => a.timestamp ≤ b.timestamp) :=
  fun a b => inferInstanceAs (Decidable (a.timestamp ≤ b.timestamp))

instance : IsTotal Entry (fun a b => a.timestamp ≤ b.timestamp) :=
  ⟨fun a b => le_total a.timestamp b.timestamp⟩

instance : IsTrans Entry (fun a b => a.timestamp ≤ b.timestamp) :=
  ⟨fun _ _ _ hab hbc => le_trans hab hbc⟩

/-- Model of `sorted(transactions_by_date[date], key=lambda x: x["timestamp"])`
(lines 231–233).  Python's `sorted` is a stable sort; insertion sort with
`≤` on the key is stable as well, and stable sorts agree. -/
def sort_bucket (b : List Entry) : List Entry :=
  b.insertionSort (fun a b => a.timestamp ≤ b.timestamp)

/-- Left-pad with spaces to width `w` (Python `f"{s:>w}"`). -/
def padLeft (s : String) (w : Nat) : String :=
  ⟨List.replicate (w - s.data.length) ' ' ++ s.data⟩

/-- Right-pad with spaces to width `w` (Python `f"{s:<w}"`). -/
def padRight (s : String) (w : Nat) : String :=
  ⟨s.data ++ List.replicate (w - s.data.length) ' '⟩

/-- Two-digit decimal field. -/
def pad2 (n : Nat) : String :=
  if n < 10 then "0" ++ toString n else toString n

/-- Python `f"{q:.2f}"`, exact on values with at most two decimal places
(every amount and balance this program prints). -/
def fmt2 (q : ℚ) : String :=
  let n : ℤ := (200 * q.num + (q.den : ℤ)).ediv (2 * (q.den : ℤ))
  let sign := if n < 0 then "-" else ""
  sign ++ toString (n.natAbs / 100) ++ "." ++ pad2 (n.natAbs % 100)

/-- One posting line without the closing-balance suffix (lines 241–257):
`Expenses`-prefixed accounts render the amount itself, every other account
the negated amount. -/
def posting_line (t : Entry) : String :=
  let formatted_amount :=
    if startsWithB t.account "Expenses" then padLeft (fmt2 t.amount) 15 ++ " KES"
    else padLeft (fmt2 (-t.amount)) 15 ++ " KES"
  "    " ++ padRight t.account 45 ++ " " ++ formatted_amount ++ " ; " ++ t.details

/-- The posting lines of one date block, the last carrying the closing
balance assertion (lines 235–258). -/
def posting_lines : List Entry → List String
  | [] => []
  | [t] => [posting_line t ++ " BAL KES " ++ fmt2 t.balance]
  | t :: t2 :: rest => posting_line t :: posting_lines (t2 :: rest)

/-- One date block: header, asset-account line, sorted postings
(lines 226–258). -/
def render_day (date : String) (bucket : List Entry) : List String :=
  (date ++ " *") :: "    Assets:Checking:Mpesa" :: posting_lines (sort_bucket bucket)

/-- The full rendered ledger, one blank line after each date block
(lines 225–260). -/
def render_ledger (config : Config) (start_date : String) (end_date : Option String)
    (rows : List Row) : List String :=
  let ts := entries config start_date end_date rows
  ((ledger_dates ts).map (fun d => render_day d (day_bucket ts d) ++ [""])).flatten

def cfgEx : Config := ⟨[], "Expenses:Misc"⟩

def rowIn : Row := ⟨"2024-03-01 14:00:00", "from EMPLOYER", "COMPLETED", some 1000, none, some 1800⟩

def entryFood : Entry := ⟨"Expenses:Food", 450, "paid to CAFE", 800, "2024-03-01 09:00:00"⟩

def entrySalary : Entry := ⟨"Income:Salary", 50000, "from EMPLOYER", 50800, "2024-03-01 14:00:00"⟩

def entryA : Entry := ⟨"Expenses:Misc", 200, "withdrawal", 800, "2024-03-01 09:00:00"⟩

def entryB : Entry := ⟨"Expenses:Misc", 1000, "deposit", 1800, "2024-03-01 14:00:00"⟩

/-! ## SMS extractor (`xtract-android.py`) -/

/-- Is `c` an ASCII digit? -/
def isDigitB (c : Char) : Bool :=
  48 ≤ c.toNat && c.toNat ≤ 57

/-- Numeric value of an ASCII digit. -/
def digitVal (c : Char) : Nat :=
  c.toNat - 48

/-- A parsed timestamp at second precision (Python `datetime`). -/
structure DateTime where
  year : Nat
  month : Nat
  day : Nat
  hour : Nat
  minute : Nat
  second : Nat
  deriving DecidableEq, Repr

/-- Field `%d`/`%m`/`%I` of `strptime`: a two-digit value in `[01, hi]` or a
single non-zero digit. -/
def readField (hi : Nat) : List Char → Option (Nat × List Char)
  | c1 :: c2 :: rest =>
    if isDigitB c1 && isDigitB c2 then
      let v := 10 * digitVal c1 + digitVal c2
      if 1 ≤ v && v ≤ hi then some (v, rest)
      else if 1 ≤ digitVal c1 then some (digitVal c1, c2 :: rest)
      else none
    else if isDigitB c1 && 1 ≤ digitVal c1 then some (digitVal c1, c2 :: rest)
    else none
  | [c1] => if isDigitB c1 && 1 ≤ digitVal c1 then some (digitVal c1, []) else none
  | [] => none

/-- Field `%M` of `strptime`: two digits `00`–`59`, or a single digit. -/
def readMinute : List Char → Option (Nat × List Char)
  | c1 :: c2 :: rest =>
    if isDigitB c1 && isDigitB c2 then
      let v := 10 * digitVal c1 + digitVal c2
      if v ≤ 59 then some (v, rest) else some (digitVal c1, c2 :: rest)
    else if isDigitB c1 then some (digitVal c1, c2 :: rest)
    else none
  | [c1] => if isDigitB c1 then some (digitVal c1, []) else none
  | [] => none

/-- Field `%y` of `strptime`: exactly two digits (a four-digit year does not
match). -/
def readYear2 : List Char → Option (Nat × List Char)
  | c1 :: c2 :: rest =>
    if isDigitB c1 && isDigitB c2 then some (10 * digitVal c1 + digitVal c2, rest)
    else none
  | _ => none

/-- Consume one expected literal character. -/
def expectChar (c : Char) : List Char → Option (List Char)
  | c1 :: rest => if c1 == c then some rest else none
  | [] => none

/-- Field `%p` of `strptime`: `AM`/`PM`, case-insensitively; `true` means PM. -/
def readAmPm : List Char → Option (Bool × List Char)
  | c1 :: c2 :: rest =>
    if (c1 == 'A' || c1 == 'a') && (c2 == 'M' || c2 == 'm') then some (false, rest)
    else if (c1 == 'P' || c1 == 'p') && (c2 == 'M' || c2 == 'm') then some (true, rest)
    else none
  | _ => none

/-- Days per month, with leap years (Python `datetime` validation). -/
def daysInMonth (year month : Nat) : Nat :=
  if month = 2 then
    if year % 4 = 0 ∧ (year % 100 ≠ 0 ∨ year % 400 = 0) then 29 else 28
  else if month = 4 ∨ month = 6 ∨ month = 9 ∨ month = 11 then 30
  else 31

/-- The compiled form of
`datetime.strptime(s, "%d/%m/%y %I:%M %p")`: day, month, a two-digit year
(`00`–`68` maps to `20xx`, `69`–`99` to `19xx`), a 12-hour clock with AM/PM
marker, entire input consumed, calendar validity enforced, seconds zero. -/
def strptime_fields (cs : List Char) : Option (Nat × Nat × Nat × Nat × Nat) := do
  let (day, cs) ← readField 31 cs
  let cs ← expectChar '/' cs
  let (month, cs) ← readField 12 cs
  let cs ← expectChar '/' cs
  let (y2, cs) ← readYear2 cs
  let cs ← expectChar ' ' cs
  let (hour12, cs) ← readField 12 cs
  let cs ← expectChar ':' cs
  let (minute, cs) ← readMinute cs
  let cs ← expectChar ' ' cs
  let (pm, cs) ← readAmPm cs
  if cs.isEmpty then
    let year := if y2 ≤ 68 then 2000 + y2 else 1900 + y2
    if day ≤ daysInMonth year month then
      let hour := if pm then (if hour12 = 12 then 12 else hour12 + 12)
        else (if hour12 = 12 then 0 else hour12)
      some (year, month, day, hour, minute)
    else none
  else none

/-- The timestamp assembled from the parsed fields; the format has no
seconds field, so seconds default to zero. -/
def strptime_dmy12 (cs : List Char) : Option DateTime :=
  (strptime_fields cs).map fun f =>
    ⟨f.1, f.2.1, f.2.2.1, f.2.2.2.1, f.2.2.2.2, 0⟩

/-- Model of `MpesaParser._parse_datetime` (lines 84–90):
`datetime.strptime(f"{date_str} {time_str}", "%d/%m/%y %I:%M %p")`; a raised
`ValueError` is `Except.error ()`.  The source then round-trips the result
through `strftime`/`strptime` with `"%Y-%m-%d %H:%M:%S"`, which is the
identity at second precision and is therefore omitted. -/
def parse_datetime (date_str time_str : String) : Except Unit DateTime :=
  match strptime_dmy12 (date_str.data ++ ' ' :: time_str.data) with
  | some dt => Except.ok dt
  | none => Except.error ()

/-- One CSV-shaped transaction record emitted by the SMS extractor
(lines 106–129 and 142–155). -/
structure Txn where
  receipt_no : String
  completion_time : DateTime
  details : String
  transaction_status : String
  paid_in : String
  withdrawn : String
  balance : String
  deriving DecidableEq, Repr

/-- Digits of a numeral, most significant first. -/
def digitsVal (cs : List Char) : Nat :=
  cs.foldl (fun a c => 10 * a + digitVal c) 0

/-- Python `float(s)` on the digit/dot strings that survive
`_clean_amount`'s stripping: at most one dot, all digits, not both sides
empty; exact for short decimals. -/
def parseDecimal (cs : List Char) : Option ℚ :=
  match cs.splitOn '.' with
  | [w] => if w ≠ [] && w.all isDigitB then some (digitsVal w : ℚ) else none
  | [w, f] =>
    if (w ≠ [] || f ≠ []) && w.all isDigitB && f.all isDigitB then
      some (mkRat (digitsVal w * 10 ^ f.length + digitsVal f) (10 ^ f.length))
    else none
  | _ => none

/-- Model of `MpesaParser._clean_amount` (lines 62–70): `None`/empty → `0.0`, strip
trailing dots, drop commas, parse as float, any failure → `0.0`. -/
def clean_amount : Option String → ℚ
  | none => 0
  | some s =>
    if s.data.isEmpty then 0
    else
      let cs := ((s.data.reverse.dropWhile (fun c => c == '.')).reverse).filter
        (fun c => c ≠ ',')
      match parseDecimal cs with
      | some q => q
      | none => 0

/-- Whitespace characters collapsed by `_clean_text`. -/
def isSpaceB (c : Char) : Bool :=
  c == ' ' || c == '\t' || c == '\n' || c == '\r'

/-- Collapse runs of whitespace to single spaces. -/
def squeeze : List Char → List Char
  | [] => []
  | c :: rest =>
    if isSpaceB c then
      match rest with
      | [] => [' ']
      | c2 :: _ => if isSpaceB c2 then squeeze rest else ' ' :: squeeze rest
    else c :: squeeze rest

/-- Model of `MpesaParser._clean_text` (lines 72–82): strip, collapse whitespace
runs (including newlines) to single spaces. -/
def clean_text (s : String) : String :=
  ⟨squeeze (((s.data.dropWhile isSpaceB).reverse.dropWhile isSpaceB).reverse)⟩

/-- The named capture groups an outbound (sent/paid/withdraw) pattern hands
to `_parse_sent`; `charge` is optional in pattern 1 and always captured by
pattern 2.  `date` and `time` are mandatory groups of every pattern, so the
metadata fallback (`match.group(..) or metadata.get(..)`) never fires on
them. -/
structure SentMatch where
  receipt_number : String
  amount : String
  details : String
  date : String
  time : String
  balance : String
  charge : Option String
  deriving DecidableEq, Repr

/-- The named capture groups an inbound pattern hands to `_parse_received`;
pattern 3 may also capture a trailing `Transaction cost` as `charge`, which
the callback never reads. -/
structure ReceivedMatch where
  receipt_number : String
  amount : String
  details : String
  date : String
  time : String
  balance : String
  charge : Option String
  deriving DecidableEq, Repr

/-- Model of `MpesaParser._parse_sent` (lines 92–130): one primary outbound record,
plus a synthetic `"Mpesa Charge"` record when the captured charge is
positive.  A `ValueError` from `_parse_datetime` propagates. -/
def parse_sent (m : SentMatch) : Except Unit (List Txn) := do
  let amount := clean_amount (some m.amount)
  let charge := clean_amount m.charge
  let balance := clean_amount (some m.balance)
  let completion_time ← parse_datetime m.date m.time
  let base : Txn := ⟨m.receipt_number, completion_time, clean_text m.details,
    "Completed", "", fmt2 amount, fmt2 balance⟩
  if charge > 0 then
    pure [base, ⟨m.receipt_number, completion_time, "Mpesa Charge",
      "Completed", "", fmt2 charge, fmt2 balance⟩]
  else
    pure [base]

/-- Model of `MpesaParser._parse_received` (lines 132–155): always exactly one
inbound record; the `charge` group, when captured, is ignored. -/
def parse_received (m : ReceivedMatch) : Except Unit (List Txn) := do
  let amount := clean_amount (some m.amount)
  let balance := clean_amount (some m.balance)
  let completion_time ← parse_datetime m.date m.time
  pure [⟨m.receipt_number, completion_time, clean_text m.details,
    "Completed", fmt2 amount, "", fmt2 balance⟩]

/-- An inbound SMS match (pattern 3 of `MpesaParser`) that captured a
positive transaction cost, e.g. from the message
`"SAM1234567 Confirmed. Ksh500.00 from JOHN DOE on 1/3/24 at 2:30 PM. M-PESA
balance is Ksh1500.00. Transaction cost Ksh15.00"`. -/
def recvChargeMatch : ReceivedMatch :=
  ⟨"SAM1234567", "500.00", "from JOHN DOE", "1/3/24", "2:30 PM", "1500.00",
    some "15.00"⟩

/-- The SMS match of the spec scenario: an outbound transfer with a
Ksh15.00 transaction cost. -/
def sentChargeMatch : SentMatch :=
  ⟨"QA12345678", "500.00", "sent to JOHN DOE 0712345678", "1/3/24", "2:30 PM",
    "1500.00", some "15.00"⟩

/-! ## Config validation (`ledgerfy.py` lines 38–90, 155–162) -/

/-- A JSON value, as loaded by `json.load`. -/
inductive JVal where
  | str (s : String)
  | num (q : ℚ)
  | bool (b : Bool)
  | null
  | arr (xs : List JVal)
  | obj (kvs : List (String × JVal))
  deriving Repr

mutual
/-- Python `==` on JSON values. -/
def jvalBeq : JVal → JVal → Bool
  | .str a, .str b => a == b
  | .num a, .num b => a == b
  | .bool a, .bool b => a == b
  | .null, .null => true
  | .arr xs, .arr ys => jvalListBeq xs ys
  | .obj xs, .obj ys => jvalObjBeq xs ys
  | _, _ => false
/-- Elementwise equality of JSON arrays. -/
def jvalListBeq : List JVal → List JVal → Bool
  | [], [] => true
  | x :: xs, y :: ys => jvalBeq x y && jvalListBeq xs ys
  | _, _ => false
/-- Entrywise equality of JSON objects. -/
def jvalObjBeq : List (String × JVal) → List (String × JVal) → Bool
  | [], [] => true
  | (k1, v1) :: xs, (k2, v2) :: ys => k1 == k2 && jvalBeq v1 v2 && jvalObjBeq xs ys
  | _, _ => false
end

/-- First binding of a key in an object's entry list. -/
def jLookup : List (String × JVal) → String → Option JVal
  | [], _ => none
  | (k, v) :: rest, key => if k == key then some v else jLookup rest key

/-- Python `d[key]` on a JSON object, as an `Option`. -/
def jGet : JVal → String → Option JVal
  | .obj kvs, key => jLookup kvs key
  | _, _ => none

/-- Python `key in d`. -/
def jHasKey (j : JVal) (key : String) : Bool :=
  (jGet j key).isSome

/-- Python `isinstance(v, list)`. -/
def jIsArr : JVal → Bool
  | .arr _ => true
  | _ => false

/-- The elements of a JSON array (`[]` for non-arrays). -/
def jArr : JVal → List JVal
  | .arr xs => xs
  | _ => []

/-- The string carried by a JSON string (`""` otherwise). -/
def jStrD : JVal → String
  | .str s => s
  | _ => ""

/-- Python `x in xs` on a JSON array. -/
def jvalMem (x : JVal) (xs : List JVal) : Bool :=
  xs.any (fun y => jvalBeq y x)

/-- Is a `match_type` value one of `"any"`/`"all"`? -/
def validMatchType (v : JVal) : Bool :=
  jvalBeq v (.str "any") || jvalBeq v (.str "all")

/-- The per-rule half of `validate_config` (lines 63–86), iterated in
order. -/
def validate_rules (accounts : List JVal) : List JVal → Except String Unit
  | [] => Except.ok ()
  | rule :: rest =>
    if !jHasKey rule "account" then
      Except.error "Rule is missing account field"
    else if !jvalMem ((jGet rule "account").getD .null) accounts then
      Except.error "Rule uses account which is not in accounts list"
    else if !jHasKey rule "keywords" then
      Except.error "Rule is missing keywords field"
    else if !jIsArr ((jGet rule "keywords").getD .null) then
      Except.error "Rule keywords must be a list"
    else if jHasKey rule "match_type" &&
        !validMatchType ((jGet rule "match_type").getD .null) then
      Except.error "Rule has invalid match_type"
    else validate_rules accounts rest

/-- Model of `validate_config` (`ledgerfy.py` lines 38–90): required keys, list
shapes, account membership, per-rule checks; the first failing check wins. -/
def validate_config (config : JVal) : Except String Unit :=
  if !jHasKey config "accounts" then
    Except.error "Missing required field in config: accounts"
  else if !jHasKey config "rules" then
    Except.error "Missing required field in config: rules"
  else if !jHasKey config "default_account" then
    Except.error "Missing required field in config: default_account"
  else if !jIsArr ((jGet config "accounts").getD .null) then
    Except.error "'accounts' must be a list"
  else if !jIsArr ((jGet config "rules").getD .null) then
    Except.error "'rules' must be a list"
  else if !jvalMem ((jGet config "default_account").getD .null)
      (jArr ((jGet config "accounts").getD .null)) then
    Except.error "default_account is not in accounts list"
  else
    validate_rules (jArr ((jGet config "accounts").getD .null))
      (jArr ((jGet config "rules").getD .null))

/-- A rule dict turned into the structured rule `categorize_transaction`
reads; `interp` is the `eval` collaborator turning a condition string into a
predicate on `amount`. -/
def rule_of_jval (interp : String → Cond) (j : JVal) : Rule where
  account := jStrD ((jGet j "account").getD .null)
  keywords := (jArr ((jGet j "keywords").getD (.arr []))).map jStrD
  exclude := (jArr ((jGet j "exclude").getD (.arr []))).map jStrD
  match_type := (jGet j "match_type").map jStrD
  condition :=
    match jGet j "condition" with
    | some (.str s) => if s.data.isEmpty then none else some (interp s)
    | _ => none

/-- The structured configuration extracted from a validated config value. -/
def config_of_jval (interp : String → Cond) (j : JVal) : Config :=
  ⟨(jArr ((jGet j "rules").getD (.arr []))).map (rule_of_jval interp),
    jStrD ((jGet j "default_account").getD .null)⟩

/-- Model of `parse_mpesa_to_ledger_with_balance` (lines 155–272): configuration is
validated first and a validation failure aborts the run before any
extraction, classification or rendering happens. -/
def ledgerfy_run (interp : String → Cond) (config : JVal) (start_date : String)
    (end_date : Option String) (rows : List Row) : Except String (List String) :=
  match validate_config config with
  | Except.error e => Except.error e
  | Except.ok () =>
    Except.ok (render_ledger (config_of_jval interp config) start_date end_date rows)

/-- A well-formed rule, following the spec wording (for the refinement
statement of C7). -/
def rule_ok (accounts : List JVal) (rule : JVal) : Prop :=
  jHasKey rule "account" = true ∧
    jvalMem ((jGet rule "account").getD .null) accounts = true ∧
    jHasKey rule "keywords" = true ∧
    jIsArr ((jGet rule "keywords").getD .null) = true ∧
    (jHasKey rule "match_type" = true →
      validMatchType ((jGet rule "match_type").getD .null) = true)

/-- A well-formed configuration, following the spec wording (for the
refinement statement of C7). -/
def config_ok (config : JVal) : Prop :=
  jHasKey config "accounts" = true ∧ jHasKey config "rules" = true ∧
    jHasKey config "default_account" = true ∧
    jIsArr ((jGet config "accounts").getD .null) = true ∧
    jIsArr ((jGet config "rules").getD .null) = true ∧
    jvalMem ((jGet config "default_account").getD .null)
      (jArr ((jGet config "accounts").getD .null)) = true ∧
    ∀ rule ∈ jArr ((jGet config "rules").getD .null),
      rule_ok (jArr ((jGet config "accounts").getD .null)) rule

/-- The spec's example of an invalid config: `default_account` is not in
`accounts`. -/
def badConfig : JVal :=
  .obj [("accounts", .arr [.str "Expenses:Food"]), ("rules", .arr []),
    ("default_account", .str "Expenses:Misc")]

/-! ## Theorems -/

lemma categorize_loop_eq_find (dl : String) (amt : ℚ) (d : String) :
    ∀ rules : List Rule,
      categorize_loop dl amt d rules =
        ((rules.find? (rule_matches dl amt)).map Rule.account).getD d := by
  intro rules
  induction rules with
  | nil => simp [categorize_loop]
  | cons rule rest ih =>
    rw [categorize_loop]
    cases hm : rule_matches dl amt rule with
    | true =>
      rw [List.find?_cons_of_pos _ hm]
      simp only [rule_matches, Bool.and_eq_true] at hm
      obtain ⟨hk, hc⟩ := hm
      simp only [hk, if_true]
      cases hcond : rule.condition with
      | none => simp
      | some cond =>
        simp only [hcond] at hc
        dsimp only at hc ⊢
        cases he : cond amt with
        | error e => rw [he] at hc; simp at hc
        | ok b =>
          cases b with
          | false => rw [he] at hc; simp at hc
          | true => simp
    | false =>
      rw [List.find?_cons_of_neg _ (by simp [hm])]
      by_cases hk : check_keywords_match dl rule.keywords (rule.match_type.getD "any") rule.exclude
      · simp only [hk, if_true]
        simp only [rule_matches, hk, Bool.true_and] at hm
        cases hcond : rule.condition with
        | none => rw [hcond] at hm; simp at hm
        | some cond =>
          rw [hcond] at hm
          dsimp only at hm ⊢
          cases he : cond amt with
          | error e => simp [ih]
          | ok b =>
            cases b with
            | true => rw [he] at hm; simp at hm
            | false => simp [ih]
      · simp [hk, ih]

lemma categorize_loop2_eq_find (dl : String) (amt : ℚ) (d : String) :
    ∀ rules : List Rule,
      categorize_loop2 dl amt d rules =
        ((rules.find? (rule_matches2 dl amt)).map Rule.account).getD d := by
  intro rules
  induction rules with
  | nil => simp [categorize_loop2]
  | cons rule rest ih =>
    rw [categorize_loop2]
    by_cases hex : rule.exclude.any (fun k => strContains dl k)
    · rw [List.find?_cons_of_neg _ (by simp [rule_matches2, hex])]
      simp [hex, ih]
    · by_cases hkw : rule.keywords.any (fun k => strContains dl k)
      · have hex' : rule.exclude.any (fun k => strContains dl k) = false := by
          simpa using hex
        cases hcond : rule.condition with
        | none =>
          rw [List.find?_cons_of_pos _ (by simp [rule_matches2, hex', hkw, hcond])]
          simp [hex', hkw, hcond]
        | some cond =>
          cases he : cond amt with
          | error e =>
            rw [List.find?_cons_of_neg _ (by simp [rule_matches2, hex', hkw, hcond, he])]
            simp [hex', hkw, hcond, he, ih]
          | ok b =>
            cases b with
            | true =>
              rw [List.find?_cons_of_pos _ (by simp [rule_matches2, hex', hkw, hcond, he])]
              simp [hex', hkw, hcond, he]
            | false =>
              rw [List.find?_cons_of_neg _ (by simp [rule_matches2, hex', hkw, hcond, he])]
              simp [hex', hkw, hcond, he, ih]
      · rw [List.find?_cons_of_neg _ (by simp [rule_matches2, hex, hkw])]
        simp [hex, hkw, ih]

lemma categorize_loop_account_mem (dl : String) (amt : ℚ) (d : String)
    (rules : List Rule) :
    categorize_loop dl amt d rules ∈ rules.map Rule.account ∨
      categorize_loop dl amt d rules = d := by
  rw [categorize_loop_eq_find]
  cases h : rules.find? (rule_matches dl amt) with
  | none => right; rfl
  | some r =>
    left
    have : r ∈ rules := List.mem_of_find?_eq_some h
    simpa using List.mem_map_of_mem Rule.account this

lemma matchHere_subset : ∀ (needle hay : List Char), matchHere needle hay = true →
    ∀ c ∈ needle, c ∈ hay := by
  intro needle
  induction needle with
  | nil => intro hay _ c hc; cases hc
  | cons a as ih =>
    intro hay hm c hc
    cases hay with
    | nil => cases hm
    | cons b bs =>
      rw [matchHere, Bool.and_eq_true] at hm
      obtain ⟨hab, hrest⟩ := hm
      rcases List.mem_cons.mp hc with rfl | hmem
      · exact List.mem_cons.mpr (Or.inl (by simpa using hab))
      · exact List.mem_cons.mpr (Or.inr (ih bs hrest c hmem))

lemma occursIn_subset : ∀ (needle hay : List Char), occursIn needle hay = true →
    ∀ c ∈ needle, c ∈ hay := by
  intro needle hay
  induction hay with
  | nil =>
    intro h c hc
    rw [occursIn] at h
    cases needle with
    | nil => cases hc
    | cons a as => cases h
  | cons b t ih =>
    intro h c hc
    rw [occursIn, Bool.or_eq_true] at h
    rcases h with h | h
    · exact matchHere_subset needle (b :: t) h c hc
    · exact List.mem_cons.mpr (Or.inr (ih h c hc))

lemma toLower_not_upperB (c : Char) : isUpperB (Char.toLower c) = false := by
  rw [Char.toLower]
  split
  · next h =>
    obtain ⟨h1, h2⟩ := h
    have hex : ∃ n, Char.toNat c = n ∧ 65 ≤ n ∧ n ≤ 90 := ⟨_, rfl, h1, h2⟩
    obtain ⟨n, hn, hn1, hn2⟩ := hex
    rw [hn]
    interval_cases n <;> decide
  · next h =>
    simp only [isUpperB, Bool.and_eq_false_iff, decide_eq_false_iff_not]
    omega

lemma strContains_lower_of_upper (s k : String)
    (h : ∃ c ∈ k.data, isUpperB c = true) :
    strContains (strLower s) k = false := by
  obtain ⟨c, hck, hcu⟩ := h
  cases hocc : strContains (strLower s) k with
  | false => rfl
  | true =>
    exfalso
    have hmem : c ∈ (strLower s).data := occursIn_subset _ _ hocc c hck
    have : c ∈ s.data.map Char.toLower := hmem
    obtain ⟨c₀, _, rfl⟩ := List.mem_map.mp this
    rw [toLower_not_upperB c₀] at hcu
    cases hcu

lemma check_false_of_upper (details : String) (kws : List String) (mt : String)
    (ex : List String) (h : ∀ kw ∈ kws, ∃ c ∈ kw.data, isUpperB c = true) :
    check_keywords_match (strLower details) kws mt ex = false := by
  rw [check_keywords_match]
  split
  · rfl
  · next hne =>
    split
    · rfl
    · split
      · next hall =>
        cases kws with
        | nil => simp at hne
        | cons k0 krest =>
          have : strContains (strLower details) k0 = false :=
            strContains_lower_of_upper details k0 (h k0 (List.mem_cons_self _ _))
          simp [this]
      · apply List.any_eq_false.mpr
        intro k hk
        simp [strContains_lower_of_upper details k (h k hk)]

lemma categorize_skip_of_upper (details : String) (amount : ℚ) (r : Rule)
    (rest : List Rule) (d : String)
    (h : ∀ kw ∈ r.keywords, ∃ c ∈ kw.data, isUpperB c = true) :
    categorize_transaction details amount ⟨r :: rest, d⟩ =
      categorize_transaction details amount ⟨rest, d⟩ := by
  simp [categorize_transaction, categorize_loop,
    check_false_of_upper details r.keywords (r.match_type.getD "any") r.exclude h]

/-- C1: for every ruleset and every `(details, amount)` pair, both versions of
`categorize_transaction` return the account of the first rule in declared
order whose keyword/exclude/condition test succeeds, and the ruleset's
`default_account` exactly when no rule matches. -/
theorem claim_C1_first_match_wins (details : String) (amount : ℚ) (config : Config) :
    categorize_transaction details amount config =
        ((config.rules.find? (rule_matches (strLower details) amount)).map
            Rule.account).getD config.default_account ∧
      categorize_transaction2 details amount config =
        ((config.rules.find? (rule_matches2 (strLower details) amount)).map
            Rule.account).getD config.default_account :=
  ⟨categorize_loop_eq_find _ _ _ _, categorize_loop2_eq_find _ _ _ _⟩

/-- C2: the keyword-match test returns false on an empty keyword list; false as
soon as an exclude keyword is a substring; otherwise it follows `match_type`
semantics, where anything other than `"all"` (in particular the default
`"any"`, which an absent `match_type` resolves to inside
`categorize_transaction`) means at least one keyword must be a substring and
`"all"` means every keyword must be. -/
theorem claim_C2_keyword_match_semantics (dl : String) (kws : List String)
    (mt : String) (ex : List String) :
    (kws = [] → check_keywords_match dl kws mt ex = false) ∧
      ((∃ k ∈ ex, strContains dl k = true) →
        check_keywords_match dl kws mt ex = false) ∧
      (kws ≠ [] → (∀ k ∈ ex, strContains dl k = false) →
        ((mt = "all" →
            (check_keywords_match dl kws mt ex = true ↔
              ∀ k ∈ kws, strContains dl k = true)) ∧
          (mt ≠ "all" →
            (check_keywords_match dl kws mt ex = true ↔
              ∃ k ∈ kws, strContains dl k = true)))) ∧
      ∀ (details : String) (amount : ℚ) (r : Rule) (rest : List Rule) (d : String),
        categorize_transaction details amount ⟨{ r with match_type := none } :: rest, d⟩ =
          categorize_transaction details amount ⟨{ r with match_type := some "any" } :: rest, d⟩ := by
  refine ⟨?_, ?_, ?_, ?_⟩
  · intro h; subst h; simp [check_keywords_match]
  · rintro ⟨k, hk, hc⟩
    have hex : ex.any (fun k => strContains dl k) = true := List.any_eq_true.mpr ⟨k, hk, hc⟩
    simp [check_keywords_match, hex]
  · intro hne hex
    have hne' : kws.isEmpty = false := by
      cases kws with
      | nil => simp at hne
      | cons a as => rfl
    have hex' : ex.any (fun k => strContains dl k) = false :=
      List.any_eq_false.mpr (by intro k hk; simp [hex k hk])
    constructor
    · intro hall; subst hall
      simp [check_keywords_match, hne', hex', List.all_eq_true]
    · intro hnall
      have : (mt == "all") = false := by simpa using hnall
      simp [check_keywords_match, hne', hex', this, List.any_eq_true]
  · intro details amount r rest d
    simp [categorize_transaction, categorize_loop]

/-- C2 witness: a rule with keyword `"sent"` and exclude keyword `"fuliza"`
does not match details containing `"fuliza"`. -/
theorem claim_C2_keyword_match_semantics_witness :
    check_keywords_match "sent to fuliza repay" ["sent"] "any" ["fuliza"] = false :=
  (claim_C2_keyword_match_semantics "sent to fuliza repay" ["sent"] "any" ["fuliza"]).2.1
    ⟨"fuliza", by decide, by decide⟩

/-- C6: when a rule's keyword test succeeds but its condition evaluation
raises, `categorize_transaction` treats the rule as a non-match and continues
with the remaining rules, and classification still yields a later rule's
account or the default account. -/
theorem claim_C6_condition_failure_recovery (details : String) (amount : ℚ)
    (r : Rule) (rest : List Rule) (d : String) (c : Cond)
    (hk : check_keywords_match (strLower details) r.keywords (r.match_type.getD "any")
        r.exclude = true)
    (hc : r.condition = some c) (he : c amount = Except.error ()) :
    categorize_transaction details amount ⟨r :: rest, d⟩ =
        categorize_transaction details amount ⟨rest, d⟩ ∧
      (categorize_transaction details amount ⟨r :: rest, d⟩ ∈ rest.map Rule.account ∨
        categorize_transaction details amount ⟨r :: rest, d⟩ = d) := by
  have h1 : categorize_transaction details amount ⟨r :: rest, d⟩ =
      categorize_transaction details amount ⟨rest, d⟩ := by
    simp [categorize_transaction, categorize_loop, hk, hc, he]
  refine ⟨h1, ?_⟩
  rw [h1]
  exact categorize_loop_account_mem (strLower details) amount d rest

/-- C10: keyword and exclude matching is case-sensitive: the details are
lower-cased but the configured keywords are not, so a keyword containing an
ASCII uppercase letter is never a substring of the lower-cased details, and a
rule all of whose keywords contain an uppercase letter never fires. -/
theorem claim_C10_case_sensitive_keywords :
    (∀ s k : String, (∃ c ∈ k.data, isUpperB c = true) →
        strContains (strLower s) k = false) ∧
      ∀ (details : String) (amount : ℚ) (r : Rule) (rest : List Rule) (d : String),
        (∀ kw ∈ r.keywords, ∃ c ∈ kw.data, isUpperB c = true) →
          categorize_transaction details amount ⟨r :: rest, d⟩ =
            categorize_transaction details amount ⟨rest, d⟩ :=
  ⟨strContains_lower_of_upper, categorize_skip_of_upper⟩

/-- C6 witness: concrete failing condition, classification falls back to the
default account. -/
theorem claim_C6_condition_failure_recovery_witness :
    categorize_transaction "lunch at cafe" 5 ⟨[failRule], "Expenses:Misc"⟩ =
        categorize_transaction "lunch at cafe" 5 ⟨[], "Expenses:Misc"⟩ ∧
      (categorize_transaction "lunch at cafe" 5 ⟨[failRule], "Expenses:Misc"⟩ ∈
          ([] : List Rule).map Rule.account ∨
        categorize_transaction "lunch at cafe" 5 ⟨[failRule], "Expenses:Misc"⟩ =
          "Expenses:Misc") :=
  claim_C6_condition_failure_recovery "lunch at cafe" 5 failRule [] "Expenses:Misc"
    failCond (by decide) rfl rfl

/-- C10 witness: the uppercase keyword `"KPLC"` never matches, and a rule
carrying only that keyword is skipped. -/
theorem claim_C10_case_sensitive_keywords_witness :
    strContains (strLower "paid to KPLC tokens") "KPLC" = false ∧
      categorize_transaction "paid to KPLC tokens" 300 ⟨[upperRule], "Expenses:Misc"⟩ =
        categorize_transaction "paid to KPLC tokens" 300 ⟨[], "Expenses:Misc"⟩ :=
  ⟨claim_C10_case_sensitive_keywords.1 "paid to KPLC tokens" "KPLC"
      ⟨'K', by decide, by decide⟩,
    claim_C10_case_sensitive_keywords.2 "paid to KPLC tokens" 300 upperRule []
      "Expenses:Misc" (by decide)⟩

lemma listLtB_iff_lt : ∀ as bs : List Char, listLtB as bs = true ↔ as < bs := by
  intro as
  induction as with
  | nil =>
    intro bs
    cases bs with
    | nil =>
      constructor
      · intro h; cases h
      · intro h; cases h
    | cons b bs =>
      constructor
      · intro _; exact List.Lex.nil
      · intro _; rfl
  | cons a as ih =>
    intro bs
    cases bs with
    | nil =>
      constructor
      · intro h; cases h
      · intro h; cases h
    | cons b bs =>
      rw [listLtB]
      split
      · next hab =>
        simp only [true_iff]
        exact List.Lex.rel hab
      · next hab =>
        split
        · next hba =>
          simp only [Bool.false_eq_true, false_iff]
          intro hcon
          cases hcon with
          | cons h => exact absurd hba (lt_irrefl a)
          | rel h => exact hab h
        · next hba =>
          have heq : a = b := le_antisymm (not_lt.mp hba) (not_lt.mp hab)
          subst heq
          rw [ih bs]
          constructor
          · intro h; exact List.Lex.cons h
          · intro hcon
            cases hcon with
            | cons h => exact h
            | rel h => exact absurd h hab

lemma strLtB_iff_lt {a b : String} : strLtB a b = true ↔ a < b := by
  rw [String.lt_iff_toList_lt]
  exact listLtB_iff_lt a.data b.data

lemma strLtB_eq_false_iff {a b : String} : strLtB a b = false ↔ b ≤ a := by
  rw [← not_lt, ← strLtB_iff_lt]
  cases strLtB a b <;> simp

/-- C3: a row is included iff its status is case-insensitively
`"completed"` and the date portion of its completion time lies in the
inclusive range `[start_date, end_date]` (unbounded above when `end_date`
is absent); the derived amount of an included row is `paidIn` when
positive, else `withdrawn`. -/
theorem claim_C3_row_filter_and_amount (config : Config) (start_date : String)
    (end_date : Option String) (row : Row) :
    ((processRow config start_date end_date row).isSome ↔
        (start_date ≤ transaction_date row.completionTime ∧
          (∀ ed ∈ end_date, transaction_date row.completionTime ≤ ed) ∧
          strLower row.status = "completed")) ∧
      ∀ t : Entry, processRow config start_date end_date row = some t →
        t.amount = if row.paidIn.getD 0 > 0 then row.paidIn.getD 0
          else row.withdrawn.getD 0 := by
  constructor
  · rw [processRow]
    split
    · next h =>
      simp only [Option.isSome_none, Bool.false_eq_true, false_iff]
      intro hcon
      exact absurd hcon.1 (not_le.mpr (strLtB_iff_lt.mp h))
    · next h1 =>
      split
      · next h2 =>
        simp only [Option.isSome_none, Bool.false_eq_true, false_iff]
        intro hcon
        cases end_date with
        | none => simp [Option.any] at h2
        | some ed =>
          simp only [Option.any] at h2
          exact absurd (hcon.2.1 ed rfl) (not_le.mpr (strLtB_iff_lt.mp h2))
      · next h2 =>
        split
        · next h3 =>
          simp only [Option.isSome_none, Bool.false_eq_true, false_iff]
          intro hcon
          exact h3 hcon.2.2
        · next h3 =>
          simp only [Option.isSome_some, true_iff]
          have h1' : strLtB (transaction_date row.completionTime) start_date = false := by
            simpa using h1
          refine ⟨strLtB_eq_false_iff.mp h1', ?_, not_not.mp (by simpa using h3)⟩
          intro ed hed
          cases end_date with
          | none => cases hed
          | some ed2 =>
            cases hed
            simp only [Option.any] at h2
            exact strLtB_eq_false_iff.mp (by simpa using h2)
  · intro t ht
    rw [processRow] at ht
    split at ht
    · cases ht
    · split at ht
      · cases ht
      · split at ht
        · cases ht
        · cases ht
          rfl

/-- Stability of the bucket sort: entries with any fixed timestamp keep
their original relative (input) order. -/
lemma sort_bucket_stable (b : List Entry) (time : String) :
    (sort_bucket b).filter (fun t => t.timestamp == time) =
      b.filter (fun t => t.timestamp == time) := by
  classical
  have hpw : (b.filter (fun t => t.timestamp == time)).Pairwise
      (fun a b : Entry => a.timestamp ≤ b.timestamp) := by
    apply List.pairwise_of_forall_mem_list
    intro a ha c hc
    have ha' := (List.mem_filter.mp ha).2
    have hc' := (List.mem_filter.mp hc).2
    have ha2 : a.timestamp = time := by simpa using ha'
    have hc2 : c.timestamp = time := by simpa using hc'
    rw [ha2, hc2]
  have hsub : List.Sublist (b.filter (fun t => t.timestamp == time)) (sort_bucket b) :=
    List.sublist_insertionSort hpw (List.filter_sublist b)
  have hsub2 : List.Sublist (b.filter (fun t => t.timestamp == time))
      ((sort_bucket b).filter (fun t => t.timestamp == time)) := by
    have hff : (fun t : Entry => (t.timestamp == time) && (t.timestamp == time)) =
        (fun t : Entry => t.timestamp == time) := by
      funext t; exact Bool.and_self _
    have h := hsub.filter (fun t => t.timestamp == time)
    rwa [List.filter_filter, hff] at h
  have hperm : List.Perm ((sort_bucket b).filter (fun t => t.timestamp == time))
      (b.filter (fun t => t.timestamp == time)) :=
    (List.perm_insertionSort _ b).filter _
  exact (hsub2.eq_of_length hperm.length_eq.symm).symm

/-- Lemma: `posting_lines` maps every posting but the last to a plain line and
appends the closing-balance assertion to the last one. -/
lemma posting_lines_append (init : List Entry) (last : Entry) :
    posting_lines (init ++ [last]) =
      init.map posting_line ++
        [posting_line last ++ " BAL KES " ++ fmt2 last.balance] := by
  induction init with
  | nil => rfl
  | cons a as ih =>
    cases as with
    | nil => rfl
    | cons a2 as2 =>
      show posting_line a :: posting_lines ((a2 :: as2) ++ [last]) =
        List.map posting_line (a :: a2 :: as2) ++
          [posting_line last ++ " BAL KES " ++ fmt2 last.balance]
      rw [ih]
      rfl

/-- C4: date blocks are rendered in ascending date order; inside a block the
postings are the bucket stably sorted by completion time (sorted, a
permutation of the input-ordered bucket, and ties keep input order); the
closing-balance assertion is appended to exactly the final posting line and
shows the balance of the chronologically last transaction of the day. -/
theorem claim_C4_render_ordering (ts : List Entry) :
    List.Sorted (· ≤ ·) (ledger_dates ts) ∧
      (ledger_dates ts).Nodup ∧
      ∀ d : String,
        List.Sorted (fun a b : Entry => a.timestamp ≤ b.timestamp)
            (sort_bucket (day_bucket ts d)) ∧
          List.Perm (sort_bucket (day_bucket ts d)) (day_bucket ts d) ∧
          (∀ time : String,
            (sort_bucket (day_bucket ts d)).filter (fun t => t.timestamp == time) =
              (day_bucket ts d).filter (fun t => t.timestamp == time)) ∧
          (day_bucket ts d ≠ [] →
            ∃ last : Entry, ∃ ini : List Entry,
              sort_bucket (day_bucket ts d) = ini ++ [last] ∧
                render_day d (day_bucket ts d) =
                  (d ++ " *") :: "    Assets:Checking:Mpesa" ::
                    (ini.map posting_line ++
                      [posting_line last ++ " BAL KES " ++ fmt2 last.balance]) ∧
                ∀ t ∈ day_bucket ts d, t.timestamp ≤ last.timestamp) := by
  refine ⟨List.sorted_insertionSort _ _,
    (List.perm_insertionSort _ _).nodup_iff.mpr (List.nodup_dedup _), ?_⟩
  intro d
  have hsorted : List.Sorted (fun a b : Entry => a.timestamp ≤ b.timestamp)
      (sort_bucket (day_bucket ts d)) := List.sorted_insertionSort _ _
  have hperm : List.Perm (sort_bucket (day_bucket ts d)) (day_bucket ts d) :=
    List.perm_insertionSort _ _
  refine ⟨hsorted, hperm, sort_bucket_stable _, ?_⟩
  intro hne
  have hne' : sort_bucket (day_bucket ts d) ≠ [] := by
    intro h0
    rw [h0] at hperm
    exact hne hperm.symm.eq_nil
  obtain ⟨ini, last, heq⟩ : ∃ ini last, sort_bucket (day_bucket ts d) = ini ++ [last] := by
    rcases List.eq_nil_or_concat (sort_bucket (day_bucket ts d)) with h | ⟨ini, last, h⟩
    · exact absurd h hne'
    · exact ⟨ini, last, by rw [h, List.concat_eq_append]⟩
  refine ⟨last, ini, heq, ?_, ?_⟩
  · rw [render_day, heq, posting_lines_append]
  · intro t ht
    have htmem : t ∈ ini ++ [last] := heq ▸ hperm.mem_iff.mpr ht
    have hsorted' := heq ▸ hsorted
    rcases List.mem_append.mp htmem with hini | hlast
    · have := (List.pairwise_append.mp hsorted').2.2
      exact this t hini _ (List.mem_singleton_self _)
    · rw [List.mem_singleton.mp hlast]

/-- C3 witness: a completed deposit row inside the date range is included
with amount `paidIn`. -/
theorem claim_C3_row_filter_and_amount_witness :
    (processRow cfgEx "2024-03-01" none rowIn).isSome = true ∧
      (⟨"Expenses:Misc", 1000, "from EMPLOYER", 1800,
          "2024-03-01 14:00:00"⟩ : Entry).amount =
        (if rowIn.paidIn.getD 0 > 0 then rowIn.paidIn.getD 0
          else rowIn.withdrawn.getD 0) :=
  ⟨(claim_C3_row_filter_and_amount cfgEx "2024-03-01" none rowIn).1.mpr
      ⟨le_of_eq (by decide), by simp, by decide⟩,
    (claim_C3_row_filter_and_amount cfgEx "2024-03-01" none rowIn).2 _ (by decide)⟩

/-- C4 witness: for a concrete two-entry day the closing balance sits on the
final posting line and belongs to the chronologically last transaction. -/
theorem claim_C4_render_ordering_witness :
    ∃ last : Entry, ∃ ini : List Entry,
      sort_bucket (day_bucket [entryA, entryB] "2024-03-01") = ini ++ [last] ∧
        render_day "2024-03-01" (day_bucket [entryA, entryB] "2024-03-01") =
          ("2024-03-01" ++ " *") :: "    Assets:Checking:Mpesa" ::
            (ini.map posting_line ++
              [posting_line last ++ " BAL KES " ++ fmt2 last.balance]) ∧
        ∀ t ∈ day_bucket [entryA, entryB] "2024-03-01",
          t.timestamp ≤ last.timestamp :=
  (((claim_C4_render_ordering [entryA, entryB]).2.2 "2024-03-01").2.2.2) (by decide)

/-- C8: amounts of `Expenses`-prefixed accounts render as the amount itself,
every other account renders the negated amount; concretely 450.00 under
`Expenses:Food` renders as `450.00` and 50000.00 under `Income:Salary` as
`-50000.00`. -/
theorem claim_C8_amount_sign_convention :
    (∀ t : Entry, startsWithB t.account "Expenses" = true →
        posting_line t = "    " ++ padRight t.account 45 ++ " " ++
          (padLeft (fmt2 t.amount) 15 ++ " KES") ++ " ; " ++ t.details) ∧
      (∀ t : Entry, startsWithB t.account "Expenses" = false →
        posting_line t = "    " ++ padRight t.account 45 ++ " " ++
          (padLeft (fmt2 (-t.amount)) 15 ++ " KES") ++ " ; " ++ t.details) ∧
      posting_line entryFood =
        "    Expenses:Food                                          450.00 KES ; paid to CAFE" ∧
      posting_line entrySalary =
        "    Income:Salary                                       -50000.00 KES ; from EMPLOYER" := by
  refine ⟨?_, ?_, by decide, by decide⟩
  · intro t h
    rw [posting_line]
    rw [h]
    rfl
  · intro t h
    rw [posting_line]
    rw [h]
    rfl

/-- C8 witness: the general sign rule applied to the two sample postings. -/
theorem claim_C8_amount_sign_convention_witness :
    posting_line entryFood = "    " ++ padRight entryFood.account 45 ++ " " ++
        (padLeft (fmt2 entryFood.amount) 15 ++ " KES") ++ " ; " ++ entryFood.details ∧
      posting_line entrySalary = "    " ++ padRight entrySalary.account 45 ++ " " ++
        (padLeft (fmt2 (-entrySalary.amount)) 15 ++ " KES") ++ " ; " ++ entrySalary.details :=
  ⟨claim_C8_amount_sign_convention.1 entryFood (by decide),
    claim_C8_amount_sign_convention.2.1 entrySalary (by decide)⟩

lemma strptime_dmy12_second (cs : List Char) (dt : DateTime)
    (h : strptime_dmy12 cs = some dt) : dt.second = 0 := by
  rw [strptime_dmy12] at h
  cases hf : strptime_fields cs with
  | none => rw [hf] at h; cases h
  | some f => rw [hf] at h; cases h; rfl

/-- C5 counterexample: an inbound match that captured a positive transaction
cost still yields exactly one record and no `"Mpesa Charge"` record. -/
theorem claim_C5_received_charge_dropped :
    clean_amount recvChargeMatch.charge > 0 ∧
      parse_received recvChargeMatch =
        Except.ok [⟨"SAM1234567", ⟨2024, 3, 1, 14, 30, 0⟩, "from JOHN DOE",
          "Completed", "500.00", "", "1500.00"⟩] ∧
      (parse_received recvChargeMatch).map List.length = Except.ok 1 := by
  refine ⟨by decide, rfl, rfl⟩

/-- C5 (amended): `_parse_sent` emits the primary record plus, exactly when
the captured charge is positive, one synthetic `"Mpesa Charge"` record with
the same receipt number and timestamp and `withdrawn` equal to the charge;
`_parse_received` always emits exactly one record, ignoring any captured
charge. -/
theorem claim_C5_sms_record_structure (m : SentMatch) (m2 : ReceivedMatch)
    (l l2 : List Txn) (h : parse_sent m = Except.ok l)
    (h2 : parse_received m2 = Except.ok l2) :
    (clean_amount m.charge > 0 →
      ∃ t t2 : Txn, l = [t, t2] ∧ t2.details = "Mpesa Charge" ∧
        t2.receipt_no = t.receipt_no ∧ t2.completion_time = t.completion_time ∧
        t2.withdrawn = fmt2 (clean_amount m.charge) ∧
        t2.transaction_status = "Completed" ∧ t2.paid_in = "") ∧
      (¬ clean_amount m.charge > 0 → ∃ t : Txn, l = [t]) ∧
      l2.length = 1 := by
  simp only [parse_sent, bind, Except.bind] at h
  simp only [parse_received, bind, Except.bind] at h2
  split at h2
  · cases h2
  · simp only [pure, Except.pure] at h2
    cases h2
    split at h
    · cases h
    · split at h
      · next hch =>
        simp only [pure, Except.pure] at h
        cases h
        exact ⟨fun _ => ⟨_, _, rfl, rfl, rfl, rfl, rfl, rfl, rfl⟩,
          fun hcon => absurd hch hcon, rfl⟩
      · next hch =>
        simp only [pure, Except.pure] at h
        cases h
        exact ⟨fun hc => absurd hc hch, fun _ => ⟨_, rfl⟩, rfl⟩

/-- C5 witness: the spec's scenario SMS (`Ksh500.00 sent ... Transaction
cost, Ksh15.00`) produces the two records, and the inbound example one. -/
theorem claim_C5_sms_record_structure_witness :
    (clean_amount sentChargeMatch.charge > 0 →
      ∃ t t2 : Txn,
        [(⟨"QA12345678", ⟨2024, 3, 1, 14, 30, 0⟩, "sent to JOHN DOE 0712345678",
            "Completed", "", "500.00", "1500.00"⟩ : Txn),
          ⟨"QA12345678", ⟨2024, 3, 1, 14, 30, 0⟩, "Mpesa Charge",
            "Completed", "", "15.00", "1500.00"⟩] = [t, t2] ∧
        t2.details = "Mpesa Charge" ∧
        t2.receipt_no = t.receipt_no ∧ t2.completion_time = t.completion_time ∧
        t2.withdrawn = fmt2 (clean_amount sentChargeMatch.charge) ∧
        t2.transaction_status = "Completed" ∧ t2.paid_in = "") ∧
      (¬ clean_amount sentChargeMatch.charge > 0 →
        ∃ t : Txn,
          [(⟨"QA12345678", ⟨2024, 3, 1, 14, 30, 0⟩, "sent to JOHN DOE 0712345678",
              "Completed", "", "500.00", "1500.00"⟩ : Txn),
            ⟨"QA12345678", ⟨2024, 3, 1, 14, 30, 0⟩, "Mpesa Charge",
              "Completed", "", "15.00", "1500.00"⟩] = [t]) ∧
      ([(⟨"SAM1234567", ⟨2024, 3, 1, 14, 30, 0⟩, "from JOHN DOE",
          "Completed", "500.00", "", "1500.00"⟩ : Txn)]).length = 1 :=
  claim_C5_sms_record_structure sentChargeMatch recvChargeMatch _ _ rfl rfl

/-- C9: the SMS date/time parser accepts day/month with a two-digit year and
a 12-hour AM/PM clock, producing a second-precision timestamp with seconds
zero — but, contrary to the extraction patterns which accept 2-to-4-digit
years, a four-digit year makes `strptime("%d/%m/%y ...")` raise. -/
theorem claim_C9_datetime_parsing :
    parse_datetime "1/3/24" "2:30 PM" = Except.ok ⟨2024, 3, 1, 14, 30, 0⟩ ∧
      parse_datetime "8/1/26" "8:04 PM" = Except.ok ⟨2026, 1, 8, 20, 4, 0⟩ ∧
      (∀ d t : String, ∀ dt : DateTime,
        parse_datetime d t = Except.ok dt → dt.second = 0) ∧
      parse_datetime "1/3/2024" "2:30 PM" = Except.error () := by
  refine ⟨rfl, rfl, ?_, rfl⟩
  intro d t dt h
  rw [parse_datetime] at h
  cases hs : strptime_dmy12 (d.data ++ ' ' :: t.data) with
  | none => rw [hs] at h; cases h
  | some dt2 =>
    rw [hs] at h
    cases h
    exact strptime_dmy12_second _ _ hs

/-- C9 witness: the general seconds-are-zero fact at a concrete parse. -/
theorem claim_C9_datetime_parsing_witness :
    (⟨2026, 1, 8, 20, 4, 0⟩ : DateTime).second = 0 :=
  claim_C9_datetime_parsing.2.2.1 "8/1/26" "8:04 PM" ⟨2026, 1, 8, 20, 4, 0⟩ rfl

lemma validate_rules_ok_iff (accounts : List JVal) :
    ∀ rules : List JVal,
      validate_rules accounts rules = Except.ok () ↔
        ∀ r ∈ rules, rule_ok accounts r := by
  intro rules
  induction rules with
  | nil => simp [validate_rules]
  | cons rule rest ih =>
    rw [validate_rules]
    split
    · next h1 =>
      constructor
      · intro hcon; cases hcon
      · intro hall
        have hh := (hall rule (List.mem_cons_self _ _)).1
        rw [hh] at h1
        cases h1
    · next h1 =>
      split
      · next h2 =>
        constructor
        · intro hcon; cases hcon
        · intro hall
          have hh := (hall rule (List.mem_cons_self _ _)).2.1
          rw [hh] at h2
          cases h2
      · next h2 =>
        split
        · next h3 =>
          constructor
          · intro hcon; cases hcon
          · intro hall
            have hh := (hall rule (List.mem_cons_self _ _)).2.2.1
            rw [hh] at h3
            cases h3
        · next h3 =>
          split
          · next h4 =>
            constructor
            · intro hcon; cases hcon
            · intro hall
              have hh := (hall rule (List.mem_cons_self _ _)).2.2.2.1
              rw [hh] at h4
              cases h4
          · next h4 =>
            split
            · next h5 =>
              rw [Bool.and_eq_true] at h5
              obtain ⟨hk, hv⟩ := h5
              constructor
              · intro hcon; cases hcon
              · intro hall
                have hh := (hall rule (List.mem_cons_self _ _)).2.2.2.2 hk
                rw [hh] at hv
                cases hv
            · next h5 =>
              have hrule : rule_ok accounts rule := by
                refine ⟨by simpa using h1, by simpa using h2, by simpa using h3,
                  by simpa using h4, ?_⟩
                intro hk
                by_contra hv
                apply h5
                rw [Bool.and_eq_true]
                exact ⟨hk, by simp [Bool.eq_false_iff.mpr hv]⟩
              rw [List.forall_mem_cons, ih]
              constructor
              · intro h; exact ⟨hrule, h⟩
              · intro h; exact h.2

/-- C7: `validate_config` accepts a configuration exactly when all the
spec's conditions hold (three required keys, list-shaped `accounts` and
`rules`, `default_account` and every rule account declared, `keywords` a
list in every rule, `match_type` if present `"any"`/`"all"`), and a
validation error aborts the run before any extraction, classification or
rendering, propagating the error. -/
theorem claim_C7_config_validation (interp : String → Cond) (config : JVal)
    (start_date : String) (end_date : Option String) (rows : List Row) :
    (validate_config config = Except.ok () ↔ config_ok config) ∧
      ∀ e, validate_config config = Except.error e →
        ledgerfy_run interp config start_date end_date rows = Except.error e := by
  constructor
  · rw [validate_config, config_ok]
    split
    · next h1 =>
      constructor
      · intro hcon; cases hcon
      · intro hall; rw [hall.1] at h1; cases h1
    · next h1 =>
      split
      · next h2 =>
        constructor
        · intro hcon; cases hcon
        · intro hall; rw [hall.2.1] at h2; cases h2
      · next h2 =>
        split
        · next h3 =>
          constructor
          · intro hcon; cases hcon
          · intro hall; rw [hall.2.2.1] at h3; cases h3
        · next h3 =>
          split
          · next h4 =>
            constructor
            · intro hcon; cases hcon
            · intro hall; rw [hall.2.2.2.1] at h4; cases h4
          · next h4 =>
            split
            · next h5 =>
              constructor
              · intro hcon; cases hcon
              · intro hall; rw [hall.2.2.2.2.1] at h5; cases h5
            · next h5 =>
              split
              · next h6 =>
                constructor
                · intro hcon; cases hcon
                · intro hall; rw [hall.2.2.2.2.2.1] at h6; cases h6
              · next h6 =>
                rw [validate_rules_ok_iff]
                constructor
                · intro h
                  exact ⟨by simpa using h1, by simpa using h2, by simpa using h3,
                    by simpa using h4, by simpa using h5, by simpa using h6, h⟩
                · intro h; exact h.2.2.2.2.2.2
  · intro e he
    rw [ledgerfy_run, he]

/-- C7 witness: the spec's scenario config (default account missing from
`accounts`) makes the whole run fail with the validation error. -/
theorem claim_C7_config_validation_witness :
    ledgerfy_run (fun _ => failCond) badConfig "2024-01-01" none [] =
      Except.error "default_account is not in accounts list" :=
  (claim_C7_config_validation (fun _ => failCond) badConfig "2024-01-01" none
      []).2 "default_account is not in accounts list"
    (by simp [validate_config, jHasKey, jGet, jLookup, jIsArr, jArr, jvalMem,
      jvalBeq, badConfig])

end MpesaTools
